import Mathlib

/-!
Verification of the task-list core of `src/src/App.tsx`:
the reducer `todosReducer`, and the persistence helpers `loadTodos` and
`saveTodos`.  The TypeScript source is shallowly embedded: JavaScript
objects of the `Todo` shape become a Lean structure, the discriminated
union `Action` becomes an inductive type, and the two environment reads
performed by the `add` branch (`crypto.randomUUID()` and `Date.now()`)
become explicit parameters `freshId` and `now` of the reducer.
JSON values stored in `localStorage` are modelled by an inductive `Json`
type (timestamps are JSON numbers; the ones this program writes are
integer millisecond counts, so `Json.num` carries an `Int`), and the
durable slot by a `Stored` type with cases for an absent value, a string
`JSON.parse` rejects, and a string parsing to a `Json` value.
-/

namespace TodoApp

/-- The `Todo` record type of `App.tsx` (lines 4–9). -/
structure Todo where
  id : String
  text : String
  completed : Bool
  createdAt : Int
  deriving Repr, DecidableEq

/-- The discriminated union `Action` of `App.tsx` (lines 18–23). -/
inductive Action where
  | add (text : String)
  | toggle (id : String)
  | remove (id : String)
  | clearCompleted
  | hydrate (todos : List Todo)
  deriving Repr, DecidableEq

/-- JavaScript `String.prototype.trim`: drops whitespace from both ends
of the string, modelled on the string's character list. -/
def trim (s : String) : String :=
  ⟨(((s.data.dropWhile Char.isWhitespace).reverse.dropWhile
      Char.isWhitespace).reverse)⟩

/-- The reducer `todosReducer` of `App.tsx` (lines 26–53).  The two
environment reads in the `add` branch, `crypto.randomUUID()` and
`Date.now()`, are passed in as `freshId` and `now`; the blank-text check
`!action.text.trim()` is the JavaScript falsiness test on the trimmed
string, i.e. emptiness. -/
def todosReducer (freshId : String) (now : Int)
    (state : List Todo) (action : Action) : List Todo :=
  match action with
  | .hydrate todos => todos
  | .add text =>
      if trim text = "" then state
      else { id := freshId, text := trim text
             completed := false, createdAt := now } :: state
  | .toggle id =>
      state.map (fun t => if t.id = id then { t with completed := !t.completed } else t)
  | .remove id => state.filter (fun t => t.id ≠ id)
  | .clearCompleted => state.filter (fun t => !t.completed)

/-- JSON values, as produced by `JSON.parse`.  Numbers are restricted to
the integers actually written by this program (`createdAt` timestamps). -/
inductive Json where
  | null
  | bool (b : Bool)
  | num (n : Int)
  | str (s : String)
  | arr (elems : List Json)
  | obj (fields : List (String × Json))
  deriving Repr

/-- JavaScript optional-chaining property access `x?.k` followed by a
`typeof` test: a property is only found on an object; on `null`,
primitives and arrays the access yields `undefined` (here `none`).
`JSON.parse` never yields duplicate keys, but for generality the first
matching key wins. -/
def getField : Json → String → Option Json
  | .obj fields, k =>
      match fields.find? (fun p => p.1 = k) with
      | some p => some p.2
      | none => none
  | _, _ => none

/-- The runtime guard of `loadTodos` (`App.tsx` line 64–66):
`typeof x?.id === "string" && typeof x?.text === "string" &&
typeof x?.completed === "boolean" && typeof x?.createdAt === "number"`. -/
def isValidTodoJson (x : Json) : Bool :=
  (match getField x "id" with | some (.str _) => true | _ => false) &&
  (match getField x "text" with | some (.str _) => true | _ => false) &&
  (match getField x "completed" with | some (.bool _) => true | _ => false) &&
  (match getField x "createdAt" with | some (.num _) => true | _ => false)

/-- Reading a JSON element that passed the guard back as a `Todo`: the
four fields the `Todo` type exposes, taken from the object.  Returns
`none` exactly when `isValidTodoJson` fails. -/
def decodeTodo (x : Json) : Option Todo :=
  match getField x "id", getField x "text",
        getField x "completed", getField x "createdAt" with
  | some (.str i), some (.str s), some (.bool b), some (.num n) =>
      some { id := i, text := s, completed := b, createdAt := n }
  | _, _, _, _ => none

/-- `JSON.stringify` of one `Todo` (as a `Json` value): an object with
exactly the four fields, in declaration order. -/
def encodeTodo (t : Todo) : Json :=
  .obj [("id", .str t.id), ("text", .str t.text),
        ("completed", .bool t.completed), ("createdAt", .num t.createdAt)]

/-- The durable slot `localStorage.getItem(STORAGE_KEY)` can be absent
(`null`, or the empty string — both falsy), a string `JSON.parse`
throws on, or a string parsing to a `Json` value. -/
inductive Stored where
  | absent
  | malformed
  | json (j : Json)
  deriving Repr

/-- `loadTodos` of `App.tsx` (lines 57–72): absent or unparseable data
gives `[]`; a parsed non-array gives `[]`; a parsed array is filtered by
the runtime guard and its surviving elements are used as `Todo`s. -/
def loadTodos : Stored → List Todo
  | .absent => []
  | .malformed => []
  | .json j =>
      match j with
      | .arr elems => (elems.filter isValidTodoJson).filterMap decodeTodo
      | _ => []

/-- `saveTodos` of `App.tsx` (lines 74–76): `JSON.stringify` of the
collection — an array of the encoded records — written to the slot.
`JSON.stringify` output always parses back to the same value. -/
def saveTodos (todos : List Todo) : Stored :=
  .json (.arr (todos.map encodeTodo))

/-- The identifiers of a collection, in order. -/
def ids (C : List Todo) : List String := C.map Todo.id

/-- `true` exactly when evaluating the intent reads the environment
(`crypto.randomUUID()` / `Date.now()`): only a non-blank `add` does. -/
def readsEnvironment : Action → Bool
  | .add t => !(trim t == "")
  | _ => false

/-! ### Helper lemmas -/

theorem decodeTodo_encodeTodo (t : Todo) : decodeTodo (encodeTodo t) = some t := rfl

theorem isValidTodoJson_encodeTodo (t : Todo) : isValidTodoJson (encodeTodo t) = true := rfl

theorem load_save_eq (C : List Todo) : loadTodos (saveTodos C) = C := by
  induction C with
  | nil => rfl
  | cons t ts ih =>
      simp only [saveTodos, loadTodos, List.map_cons, List.filter_cons,
        isValidTodoJson_encodeTodo, if_true, List.filterMap_cons,
        decodeTodo_encodeTodo]
      simpa [saveTodos, loadTodos] using ih

theorem decodeTodo_isSome (x : Json) : (decodeTodo x).isSome = isValidTodoJson x := by
  unfold decodeTodo isValidTodoJson
  rcases hi : getField x "id" with _ | ji <;>
    rcases ht : getField x "text" with _ | jt <;>
    rcases hc : getField x "completed" with _ | jc <;>
    rcases hn : getField x "createdAt" with _ | jn <;>
    first
      | rfl
      | (cases ji <;> cases jt <;> cases jc <;> cases jn <;> rfl)
      | (cases ji <;> cases jt <;> cases jc <;> rfl)
      | (cases ji <;> cases jt <;> cases jn <;> rfl)
      | (cases ji <;> cases jc <;> cases jn <;> rfl)
      | (cases jt <;> cases jc <;> cases jn <;> rfl)
      | (cases ji <;> cases jt <;> rfl)
      | (cases ji <;> cases jc <;> rfl)
      | (cases ji <;> cases jn <;> rfl)
      | (cases jt <;> cases jc <;> rfl)
      | (cases jt <;> cases jn <;> rfl)
      | (cases jc <;> cases jn <;> rfl)
      | (cases ji <;> rfl)
      | (cases jt <;> rfl)
      | (cases jc <;> rfl)
      | (cases jn <;> rfl)

/-! ### Claim theorems -/

/-- C1: for a text whose trimmed form is non-empty, `add` produces a
collection one longer, whose first element is a new record with text
`t.trim`, `completed = false`, and the freshly generated identifier —
assumed distinct from every identifier already in `C`, which is the
freshness contract of `crypto.randomUUID()` — and whose remaining
elements are the records of `C` unchanged and in order. -/
theorem add_nonblank_prepends_fresh_record (freshId : String) (now : Int)
    (C : List Todo) (t : String) (ht : trim t ≠ "")
    (hf : freshId ∉ ids C) :
    (todosReducer freshId now C (.add t)).length = C.length + 1 ∧
    ∃ nt : Todo, todosReducer freshId now C (.add t) = nt :: C ∧
      nt.text = trim t ∧ nt.completed = false ∧ nt.id ∉ ids C := by
  simp only [todosReducer, if_neg ht]
  exact ⟨by simp, ⟨_, rfl, rfl, rfl, hf⟩⟩

/-- Witness for C1 at `C = [⟨"u0", "x", false, 0⟩]`, `t = " a "`,
`freshId = "u1"`. -/
theorem add_nonblank_prepends_fresh_record_witness :
    (trim " a " ≠ "" ∧ "u1" ∉ ids [⟨"u0", "x", false, 0⟩]) ∧
    ((todosReducer "u1" 5 [⟨"u0", "x", false, 0⟩] (.add " a ")).length =
        ([⟨"u0", "x", false, 0⟩] : List Todo).length + 1 ∧
    ∃ nt : Todo, todosReducer "u1" 5 [⟨"u0", "x", false, 0⟩] (.add " a ") =
        nt :: [⟨"u0", "x", false, 0⟩] ∧
      nt.text = trim " a " ∧ nt.completed = false ∧
      nt.id ∉ ids [⟨"u0", "x", false, 0⟩]) :=
  ⟨⟨by decide, by decide⟩,
    add_nonblank_prepends_fresh_record "u1" 5 [⟨"u0", "x", false, 0⟩] " a "
      (by decide) (by decide)⟩

/-- C2: toggling an identifier present in the collection preserves the
length, and position by position: a record carrying that identifier
reappears with only its completed flag inverted (id, text, createdAt
untouched by the record update), and any other record reappears
unchanged at its place. -/
theorem toggle_present_inverts_only_target (freshId : String) (now : Int)
    (C : List Todo) (i : String) (hi : i ∈ ids C) :
    (todosReducer freshId now C (.toggle i)).length = C.length ∧
    ∀ (k : Nat) (t : Todo), C[k]? = some t →
      (t.id = i → (todosReducer freshId now C (.toggle i))[k]? =
        some { t with completed := !t.completed }) ∧
      (t.id ≠ i → (todosReducer freshId now C (.toggle i))[k]? = some t) := by
  refine ⟨by simp [todosReducer], ?_⟩
  intro k t hk
  exact ⟨fun hid => by simp [todosReducer, hk, hid],
         fun hid => by simp [todosReducer, hk, hid]⟩

/-- Witness for C2 at a two-record collection, toggling `"b"`. -/
theorem toggle_present_inverts_only_target_witness :
    ("b" ∈ ids [⟨"a", "x", false, 0⟩, ⟨"b", "y", false, 1⟩]) ∧
    ((todosReducer "f" 9 [⟨"a", "x", false, 0⟩, ⟨"b", "y", false, 1⟩]
        (.toggle "b")).length =
      ([⟨"a", "x", false, 0⟩, ⟨"b", "y", false, 1⟩] : List Todo).length ∧
    ∀ (k : Nat) (t : Todo),
      ([⟨"a", "x", false, 0⟩, ⟨"b", "y", false, 1⟩] : List Todo)[k]? = some t →
      (t.id = "b" → (todosReducer "f" 9 [⟨"a", "x", false, 0⟩, ⟨"b", "y", false, 1⟩]
          (.toggle "b"))[k]? = some { t with completed := !t.completed }) ∧
      (t.id ≠ "b" → (todosReducer "f" 9 [⟨"a", "x", false, 0⟩, ⟨"b", "y", false, 1⟩]
          (.toggle "b"))[k]? = some t)) :=
  ⟨by decide,
    toggle_present_inverts_only_target "f" 9
      [⟨"a", "x", false, 0⟩, ⟨"b", "y", false, 1⟩] "b" (by decide)⟩

/-- C3: `clearCompleted` yields a subsequence of the collection — kept
records unchanged and in their original relative order — whose records
all have `completed = false`, keeping each not-completed record with its
exact multiplicity and dropping every completed one. -/
theorem clearCompleted_keeps_exactly_active (freshId : String) (now : Int)
    (C : List Todo) :
    (todosReducer freshId now C .clearCompleted).Sublist C ∧
    (∀ t ∈ todosReducer freshId now C .clearCompleted, t.completed = false) ∧
    (∀ t : Todo, (todosReducer freshId now C .clearCompleted).count t =
      if t.completed then 0 else C.count t) := by
  refine ⟨?_, ?_, ?_⟩
  · simpa [todosReducer] using List.filter_sublist C
  · intro t htm
    simp only [todosReducer, List.mem_filter, Bool.not_eq_true'] at htm
    exact htm.2
  · intro t
    by_cases hc : t.completed
    · rw [if_pos hc, List.count_eq_zero]
      simp [todosReducer, List.mem_filter, hc]
    · rw [if_neg hc]
      simp only [todosReducer]
      exact List.count_filter (by simp [hc])

/-- Witness for C3 at a mixed two-record collection. -/
theorem clearCompleted_keeps_exactly_active_witness :
    (todosReducer "f" 0 [⟨"a", "x", true, 0⟩, ⟨"b", "y", false, 1⟩]
        .clearCompleted).Sublist [⟨"a", "x", true, 0⟩, ⟨"b", "y", false, 1⟩] ∧
    (∀ t ∈ todosReducer "f" 0 [⟨"a", "x", true, 0⟩, ⟨"b", "y", false, 1⟩]
        .clearCompleted, t.completed = false) ∧
    (∀ t : Todo, (todosReducer "f" 0 [⟨"a", "x", true, 0⟩, ⟨"b", "y", false, 1⟩]
        .clearCompleted).count t =
      if t.completed then 0
      else ([⟨"a", "x", true, 0⟩, ⟨"b", "y", false, 1⟩] : List Todo).count t) :=
  clearCompleted_keeps_exactly_active "f" 0
    [⟨"a", "x", true, 0⟩, ⟨"b", "y", false, 1⟩]

/-- C4: invalid-target intents are silent no-ops: an `add` whose text
trims to empty, a `toggle` of an identifier not in the collection, and a
`remove` of an identifier not in the collection all return the
collection unchanged. -/
theorem invalid_target_noop (freshId : String) (now : Int) (C : List Todo)
    (t i r : String) (ht : trim t = "") (hi : i ∉ ids C) (hr : r ∉ ids C) :
    todosReducer freshId now C (.add t) = C ∧
    todosReducer freshId now C (.toggle i) = C ∧
    todosReducer freshId now C (.remove r) = C := by
  refine ⟨by simp [todosReducer, ht], ?_, ?_⟩
  · simp only [todosReducer]
    have h : ∀ x ∈ C, (if x.id = i then { x with completed := !x.completed } else x) = id x := by
      intro x hx
      have hxi : ¬x.id = i := fun hxi => hi (hxi ▸ List.mem_map_of_mem Todo.id hx)
      simp [hxi]
    rw [List.map_congr_left h, List.map_id]
  · simp only [todosReducer]
    rw [List.filter_eq_self]
    intro x hx
    simp only [ne_eq, decide_not, Bool.not_eq_eq_eq_not, Bool.not_true,
      decide_eq_false_iff_not]
    intro hxr
    exact hr (hxr ▸ List.mem_map_of_mem Todo.id hx)

/-- Witness for C4 at `C = [⟨"a", "x", false, 0⟩]` with blank text `"   "`
and unknown identifier `"z"`. -/
theorem invalid_target_noop_witness :
    (trim "   " = "" ∧ "z" ∉ ids [⟨"a", "x", false, 0⟩]) ∧
    (todosReducer "f" 7 [⟨"a", "x", false, 0⟩] (.add "   ") = [⟨"a", "x", false, 0⟩] ∧
     todosReducer "f" 7 [⟨"a", "x", false, 0⟩] (.toggle "z") = [⟨"a", "x", false, 0⟩] ∧
     todosReducer "f" 7 [⟨"a", "x", false, 0⟩] (.remove "z") = [⟨"a", "x", false, 0⟩]) :=
  ⟨⟨by decide, by decide⟩,
    invalid_target_noop "f" 7 [⟨"a", "x", false, 0⟩] "   " "z" "z"
      (by decide) (by decide) (by decide)⟩

/-- C5: the persistence round-trip is the identity: saving any collection
and loading it back yields the same records, field for field and in the
same order. -/
theorem load_save_roundtrip (C : List Todo) : loadTodos (saveTodos C) = C :=
  load_save_eq C

/-- Filtering by the runtime guard before decoding changes nothing,
because the guard accepts exactly the decodable elements. -/
theorem filter_guard_filterMap_decode (xs : List Json) :
    (xs.filter isValidTodoJson).filterMap decodeTodo = xs.filterMap decodeTodo := by
  induction xs with
  | nil => rfl
  | cons x rest ih =>
      by_cases v : isValidTodoJson x
      · simp [List.filter_cons, v, List.filterMap_cons, ih]
      · have hd : decodeTodo x = none := by
          have h := decodeTodo_isSome x
          rw [Bool.not_eq_true] at v
          rw [v] at h
          exact Option.not_isSome_iff_eq_none.mp (by simp [h])
        simp [List.filter_cons, v, List.filterMap_cons, hd, ih]

/-- C6: `loadTodos` never fails and degrades gracefully: an absent slot,
an unparseable encoding, and a parsed non-array all load as the empty
collection; a parsed array loads exactly those elements that decode as a
task record — the runtime guard accepts precisely the decodable
elements — dropping the rest; in particular an array holding one
well-formed record and one malformed entry loads as the singleton of the
well-formed record. -/
theorem load_degrades_never_fails (j : Json) (hj : ∀ ys, j ≠ .arr ys)
    (xs : List Json) (w : Todo) :
    loadTodos .absent = [] ∧
    loadTodos .malformed = [] ∧
    loadTodos (.json j) = [] ∧
    loadTodos (.json (.arr xs)) = xs.filterMap decodeTodo ∧
    (∀ x : Json, isValidTodoJson x = (decodeTodo x).isSome) ∧
    loadTodos (.json (.arr [encodeTodo w, Json.null])) = [w] := by
  refine ⟨rfl, rfl, ?_, ?_, ?_, rfl⟩
  · cases j with
    | arr ys => exact absurd rfl (hj ys)
    | _ => rfl
  · simpa [loadTodos] using filter_guard_filterMap_decode xs
  · exact fun x => (decodeTodo_isSome x).symm

/-- Witness for C6 at `j = Json.null`, a one-element malformed array and
the record `⟨"a", "x", false, 0⟩`. -/
theorem load_degrades_never_fails_witness :
    (∀ ys, Json.null ≠ Json.arr ys) ∧
    (loadTodos .absent = [] ∧
     loadTodos .malformed = [] ∧
     loadTodos (.json .null) = [] ∧
     loadTodos (.json (.arr [Json.bool true])) = [Json.bool true].filterMap decodeTodo ∧
     (∀ x : Json, isValidTodoJson x = (decodeTodo x).isSome) ∧
     loadTodos (.json (.arr [encodeTodo ⟨"a", "x", false, 0⟩, Json.null])) =
       [⟨"a", "x", false, 0⟩]) :=
  ⟨(fun ys h => nomatch h),
    load_degrades_never_fails .null (fun ys h => nomatch h)
      [Json.bool true] ⟨"a", "x", false, 0⟩⟩

/-- C7 counterexample: `apply` is not a function of (collection, intent)
alone — a non-blank `add` also reads the freshly generated identifier,
so the same collection and intent can produce different results. -/
theorem apply_not_function_of_state_and_intent :
    todosReducer "id1" 0 [] (.add "x") ≠ todosReducer "id2" 0 [] (.add "x") := by
  decide

/-- C7 (amended): every transition that does not read the environment —
every intent other than an `add` of non-blank text — is a pure function
of (collection, intent): the result does not depend on the generated
identifier or timestamp.  An `add` of non-blank text is a pure function
of (collection, intent, identifier, timestamp); on identical inputs the
embedded reducer is deterministic by construction, and records are
values — no in-place mutation exists in the model. -/
theorem apply_pure_given_environment (f f' : String) (n n' : Int)
    (C : List Todo) (a : Action) (h : readsEnvironment a = false) :
    todosReducer f n C a = todosReducer f' n' C a := by
  cases a with
  | add t =>
      simp only [readsEnvironment, Bool.not_eq_false', beq_iff_eq] at h
      simp [todosReducer, h]
  | toggle i => rfl
  | remove i => rfl
  | clearCompleted => rfl
  | hydrate l => rfl

/-- Witness for the amended C7: a toggle result is independent of the
environment parameters. -/
theorem apply_pure_given_environment_witness :
    readsEnvironment (.toggle "a") = false ∧
    todosReducer "f1" 1 [⟨"a", "x", false, 0⟩] (.toggle "a") =
      todosReducer "f2" 2 [⟨"a", "x", false, 0⟩] (.toggle "a") :=
  ⟨by decide,
    apply_pure_given_environment "f1" "f2" 1 2 [⟨"a", "x", false, 0⟩]
      (.toggle "a") (by decide)⟩

/-- C8 counterexample: `loadTodos` revalidates only the shape of each
stored element, not identifier uniqueness, so hydrating the empty
collection with the result of loading a stored array that repeats an
identifier yields a collection with duplicate identifiers. -/
theorem ids_unique_invariant_counterexample :
    ¬ (ids (todosReducer "f" 0 []
        (.hydrate (loadTodos (.json (.arr
          [encodeTodo ⟨"a", "x", false, 0⟩,
           encodeTodo ⟨"a", "y", false, 1⟩])))))).Nodup := by
  decide

/-- C8 (amended): identifier uniqueness is preserved by every single
transition under the natural side conditions — the identifier supplied
to an `add` is not already in the collection (the freshness contract of
`crypto.randomUUID()`), and `hydrate` is given records with pairwise
distinct identifiers, as it is when the loaded slot was saved from a
collection with pairwise distinct identifiers, the round-trip being the
identity.  Hydrating arbitrary stored data can break the invariant,
since `loadTodos` checks structure only. -/
theorem ids_nodup_preserved (f : String) (n : Int) (C : List Todo)
    (a : Action) (hC : (ids C).Nodup)
    (ha : match a with
          | .add _ => f ∉ ids C
          | .hydrate l => (ids l).Nodup
          | _ => True) :
    (ids (todosReducer f n C a)).Nodup ∧
    ∀ D : List Todo, (ids D).Nodup → (ids (loadTodos (saveTodos D))).Nodup := by
  refine ⟨?_, fun D hD => by rw [load_save_eq]; exact hD⟩
  cases a with
  | hydrate l => exact ha
  | add t =>
      by_cases htr : trim t = ""
      · simpa [todosReducer, htr] using hC
      · have hids : ids (todosReducer f n C (.add t)) = f :: ids C := by
          simp [todosReducer, htr, ids]
        rw [hids]
        exact List.nodup_cons.mpr ⟨ha, hC⟩
  | toggle i =>
      have hids : ids (todosReducer f n C (.toggle i)) = ids C := by
        simp only [todosReducer, ids, List.map_map]
        refine List.map_congr_left ?_
        intro x _
        by_cases hxi : x.id = i <;> simp [hxi]
      rw [hids]; exact hC
  | remove r =>
      have hsub : (todosReducer f n C (.remove r)).Sublist C :=
        List.filter_sublist C
      exact List.Nodup.sublist (hsub.map Todo.id) hC
  | clearCompleted =>
      have hsub : (todosReducer f n C .clearCompleted).Sublist C :=
        List.filter_sublist C
      exact List.Nodup.sublist (hsub.map Todo.id) hC

/-- Witness for the amended C8 with a fresh identifier `"b"` added to a
singleton collection. -/
theorem ids_nodup_preserved_witness :
    ((ids [⟨"a", "x", false, 0⟩]).Nodup ∧ "b" ∉ ids [⟨"a", "x", false, 0⟩]) ∧
    ((ids (todosReducer "b" 3 [⟨"a", "x", false, 0⟩] (.add "y"))).Nodup ∧
     ∀ D : List Todo, (ids D).Nodup → (ids (loadTodos (saveTodos D))).Nodup) :=
  ⟨⟨by decide, by decide⟩,
    ids_nodup_preserved "b" 3 [⟨"a", "x", false, 0⟩] (.add "y")
      (by decide) (by decide)⟩

/-- C9: toggling the same identifier twice returns the original
collection — each record with the target identifier has its completed
flag flipped twice, which is the identity, and a toggle never changes a
record's identifier.  The claim's pairwise-distinct-identifier
hypothesis is retained from its statement. -/
theorem toggle_involution (f f' : String) (n n' : Int) (C : List Todo)
    (i : String) (hC : (ids C).Nodup) :
    todosReducer f' n' (todosReducer f n C (.toggle i)) (.toggle i) = C := by
  simp only [todosReducer, List.map_map]
  have h : ∀ x ∈ C,
      ((fun t : Todo => if t.id = i then { t with completed := !t.completed } else t) ∘
       (fun t : Todo => if t.id = i then { t with completed := !t.completed } else t)) x
        = id x := by
    intro x _
    obtain ⟨xid, xtext, xc, xca⟩ := x
    by_cases hxi : xid = i
    · subst hxi; simp [Function.comp]
    · simp [Function.comp, hxi]
  rw [List.map_congr_left h, List.map_id]

/-- Witness for C9 on a two-record collection with distinct identifiers. -/
theorem toggle_involution_witness :
    (ids [⟨"a", "x", false, 0⟩, ⟨"b", "y", true, 1⟩]).Nodup ∧
    todosReducer "g" 4
        (todosReducer "f" 3 [⟨"a", "x", false, 0⟩, ⟨"b", "y", true, 1⟩]
          (.toggle "a")) (.toggle "a") =
      [⟨"a", "x", false, 0⟩, ⟨"b", "y", true, 1⟩] :=
  ⟨by decide,
    toggle_involution "f" "g" 3 4 [⟨"a", "x", false, 0⟩, ⟨"b", "y", true, 1⟩]
      "a" (by decide)⟩

/-- C10: every transition preserves the relative order of the records it
retains: `add` keeps all of `C` as a subsequence of its result, `remove`
and `clearCompleted` produce subsequences of `C`, and `toggle` keeps the
identifier sequence unchanged while the records it leaves untouched —
those whose identifier differs from the target — appear identical and in
the same relative order. -/
theorem retained_records_keep_order (f : String) (n : Int) (C : List Todo)
    (t i r : String) :
    C.Sublist (todosReducer f n C (.add t)) ∧
    (todosReducer f n C (.remove r)).Sublist C ∧
    (todosReducer f n C .clearCompleted).Sublist C ∧
    ids (todosReducer f n C (.toggle i)) = ids C ∧
    (todosReducer f n C (.toggle i)).filter (fun x => x.id ≠ i) =
      C.filter (fun x => x.id ≠ i) := by
  refine ⟨?_, List.filter_sublist C, List.filter_sublist C, ?_, ?_⟩
  · by_cases htr : trim t = ""
    · simp [todosReducer, htr]
    · simp only [todosReducer, if_neg htr]
      exact List.sublist_cons_self _ C
  · simp only [todosReducer, ids, List.map_map]
    refine List.map_congr_left ?_
    intro x _
    by_cases hxi : x.id = i <;> simp [hxi]
  · induction C with
    | nil => rfl
    | cons x xs ih =>
        simp only [todosReducer, ne_eq, decide_not] at ih ⊢
        simp only [List.map_cons, List.filter_cons]
        by_cases hxi : x.id = i <;> simp [hxi, ih]

end TodoApp
